import Mathlib

/-!
Verification of the everywhere-cli repository (a Go command-line client for a
remote sandbox API).  We give a shallow embedding of the archive-packing
helper (cmd/commands.go), the API-client response handling (cmd/api.go), the
configuration auth check (cmd/config.go), and the command handlers at the
granularity of the HTTP requests they issue, and prove the frozen claims
about them.

Conventions of the embedding:
- Go strings are Lean String; reasoning happens on the underlying char list
  (String.data).  The Go sources only manipulate ASCII here, so byte indices
  and char indices coincide on every relevant input.
- Fallible Go code returns Except String (Go errors are strings built with
  fmt.Errorf).
- External effects (the HTTP transport, JSON decoding by encoding/json, the
  filesystem, stdin) are oracles passed in explicitly; the functions below
  model exactly the code of this repository around those oracles.
-/

/-! ## String helpers: models of the Go standard-library string functions
used by the repository.  All are defined on String.data so that proofs can
work on plain char lists. -/

/-- Model of the Go expression strings.ToLower (ASCII part; the repository
only compares against ASCII suffixes such as ".py", ".zip", ".tar.gz"). -/
def toLowerStr (s : String) : String :=
  ⟨s.data.map Char.toLower⟩

/-- Model of strings.HasSuffix: pat is a suffix of s. -/
def hasSuffix (s pat : String) : Bool :=
  pat.data.reverse.isPrefixOf s.data.reverse

/-- Substring containment (used to state what an error message carries):
pat occurs contiguously inside s. -/
def strContains (s pat : String) : Prop :=
  pat.data <:+: s.data

/-- Suffix containment at the String level (used to state that a message
carries the response body verbatim at its end). -/
def strEndsWith (s pat : String) : Prop :=
  pat.data <:+ s.data

/-- First index (in chars) at which pat occurs in l; model of bytes.Index /
strings.Index restricted to the ASCII inputs the repository uses. -/
def firstIdx (pat : List Char) : List Char → Option Nat
  | [] => if pat.isEmpty then some 0 else none
  | c :: rest =>
    if pat.isPrefixOf (c :: rest) then some 0
    else (firstIdx pat rest).map (· + 1)

/-- The double-quote character (ASCII 34). -/
def quoteChar : Char := Char.ofNat 34

/-- Model of strings.TrimSpace. -/
def trimStr (s : String) : String :=
  ⟨((s.data.dropWhile Char.isWhitespace).reverse.dropWhile Char.isWhitespace).reverse⟩

/-- Join a list of path components with a separator string; model of the
relative path produced by filepath.Rel (which joins the remaining
components with the host separator) and of strings.Join. -/
def joinSep (sep : String) : List String → String
  | [] => ""
  | [a] => a
  | a :: b :: rest => a ++ sep ++ joinSep sep (b :: rest)

/-- The one-character string holding the host path separator. -/
def sepStr (sep : Char) : String := ⟨[sep]⟩

/-! ## HTTP model -/

/-- An HTTP response as the client observes it: status code, the
Content-Disposition header value (Header.Get returns the empty string when
the header is absent), and the body text. -/
structure HttpResponse where
  statusCode : Nat
  contentDisposition : String
  body : String
deriving Repr, DecidableEq

/-- JSON values appearing in request bodies built by the client. -/
inductive JsonVal where
  | str (s : String)
  | obj (fields : List (String × JsonVal))
deriving Repr, BEq

/-- An HTTP request at the granularity the claims need: method, endpoint
(path plus query string), and the JSON body as a key/value list in
insertion order (empty for requests with nil or multipart bodies). -/
structure Request where
  method : String
  endpoint : String
  body : List (String × JsonVal)
deriving Repr, BEq

/-! ## Decoded payload types (cmd/api.go struct types) -/

structure User where
  id : Int
  email : String
  firstName : String
  lastName : String
  tenantID : String
deriving Repr, DecidableEq

structure AuthStatusResponse where
  authenticated : Bool
  user : User
deriving Repr, DecidableEq

structure sandbox where
  id : Int
  name : String
  status : String
  ipAddress : String
  createdAt : String
  updatedAt : String
  tenantID : String
  userID : Int
  description : String
deriving Repr, DecidableEq

structure ProjectFile where
  path : String
  name : String
  content : String
deriving Repr, DecidableEq

/-- The data object decoded by RunCommand and RunPython. -/
structure ExecData where
  output : String
  error : String
  sandbox : String
deriving Repr, DecidableEq

/-! ## Response handling, one function per APIClient operation.

Each handler models the code of the corresponding method in cmd/api.go
after the http.Client.Do call succeeded: the status branch, the error
message built with fmt.Errorf, and the decode of the success body.  JSON
decoding is performed by encoding/json in Go, so it enters the model as an
oracle of type String → Except String α; the error path never consults it
(the raw body is surfaced verbatim). -/

/-- GetAuthStatus, cmd/api.go lines 85-108. -/
def getAuthStatusHandle (resp : HttpResponse)
    (dec : String → Except String AuthStatusResponse) :
    Except String AuthStatusResponse :=
  if resp.statusCode = 401 then
    .error ("authentication failed: " ++ resp.body)
  else if resp.statusCode ≠ 200 then
    .error ("failed to get auth status: " ++ toString resp.statusCode ++ " - " ++ resp.body)
  else
    dec resp.body

/-- ListSandboxes, cmd/api.go lines 110-135.  The decode oracle returns
the Data.Items field of the decoded envelope. -/
def listSandboxesHandle (resp : HttpResponse)
    (dec : String → Except String (List sandbox)) :
    Except String (List sandbox) :=
  if resp.statusCode ≠ 200 then
    .error ("failed to list sandboxes: " ++ resp.body)
  else
    dec resp.body

/-- CreateSandbox response branch, cmd/api.go lines 156-170 (success set
is 200 or 201). -/
def createSandboxHandle (resp : HttpResponse)
    (dec : String → Except String sandbox) :
    Except String sandbox :=
  if resp.statusCode ≠ 200 ∧ resp.statusCode ≠ 201 then
    .error ("failed to create sandbox: " ++ resp.body)
  else
    dec resp.body

/-- DeleteSandbox, cmd/api.go lines 173-186. -/
def deleteSandboxHandle (resp : HttpResponse) : Except String Unit :=
  if resp.statusCode ≠ 200 then
    .error ("failed to delete sandbox: " ++ resp.body)
  else
    .ok ()

/-- StartSandbox, cmd/api.go lines 188-201. -/
def startSandboxHandle (resp : HttpResponse) : Except String Unit :=
  if resp.statusCode ≠ 200 then
    .error ("failed to start sandbox: " ++ resp.body)
  else
    .ok ()

/-- StopSandbox, cmd/api.go lines 203-216. -/
def stopSandboxHandle (resp : HttpResponse) : Except String Unit :=
  if resp.statusCode ≠ 200 then
    .error ("failed to stop sandbox: " ++ resp.body)
  else
    .ok ()

/-- RunCommand response handling, cmd/api.go lines 233-255: non-200 is a
remote error with the raw body; on 200 the decoded Data is inspected and a
non-empty error field wins over output. -/
def runCommandHandle (resp : HttpResponse)
    (dec : String → Except String ExecData) : Except String String :=
  if resp.statusCode ≠ 200 then
    .error ("failed to run command: " ++ resp.body)
  else
    match dec resp.body with
    | .error e => .error e
    | .ok d =>
      if d.error ≠ "" then .error ("command failed: " ++ d.error)
      else .ok d.output

/-- RunPython response handling, cmd/api.go lines 431-453. -/
def runPythonHandle (resp : HttpResponse)
    (dec : String → Except String ExecData) : Except String String :=
  if resp.statusCode ≠ 200 then
    .error ("failed to run python: " ++ resp.body)
  else
    match dec resp.body with
    | .error e => .error e
    | .ok d =>
      if d.error ≠ "" then .error ("python execution failed: " ++ d.error)
      else .ok d.output

/-- Filename extraction of DownloadZip, cmd/api.go lines 281-290: start
from the fallback, look for the token filename=" (10 chars), then for the
next double quote after it; any miss keeps the fallback. -/
def extractFilename (cd : String) : String :=
  if cd = "" then "download.zip"
  else
    match firstIdx ("filename=".data ++ [quoteChar]) cd.data with
    | none => "download.zip"
    | some idx =>
      let start := idx + 10
      match firstIdx [quoteChar] (cd.data.drop start) with
      | none => "download.zip"
      | some e => ⟨(cd.data.drop start).take e⟩

/-- DownloadZip response handling, cmd/api.go lines 275-292: non-200 is a
remote error carrying the body; on success the raw body stream is returned
together with the filename parsed from Content-Disposition. -/
def downloadZipHandle (resp : HttpResponse) : Except String (String × String) :=
  if resp.statusCode ≠ 200 then
    .error ("failed to download zip: " ++ resp.body)
  else
    .ok (resp.body, extractFilename resp.contentDisposition)

/-- ListFiles response handling, cmd/api.go lines 314-328. -/
def listFilesHandle (resp : HttpResponse)
    (dec : String → Except String (List ProjectFile)) :
    Except String (List ProjectFile) :=
  if resp.statusCode ≠ 200 then
    .error ("failed to list files: " ++ resp.body)
  else
    dec resp.body

/-- UpdateFile response handling, cmd/api.go lines 347-352. -/
def updateFileHandle (resp : HttpResponse) : Except String Unit :=
  if resp.statusCode ≠ 200 then
    .error ("failed to update file: " ++ resp.body)
  else
    .ok ()

/-- UploadArchive response handling, cmd/api.go lines 404-409. -/
def uploadArchiveHandle (resp : HttpResponse) : Except String Unit :=
  if resp.statusCode ≠ 200 then
    .error ("failed to upload archive: " ++ resp.body)
  else
    .ok ()

/-! ## Request bodies built by the client (cmd/api.go) -/

/-- CreateSandbox request body, cmd/api.go lines 137-148: keys are added
to the map only when the corresponding argument is non-empty.  Go map
literals are modelled as key/value lists in insertion order. -/
def createSandboxReq (name port : String) (secrets : List (String × String)) :
    List (String × JsonVal) :=
  (if name ≠ "" then [("name", JsonVal.str name)] else []) ++
  (if port ≠ "" then [("port", JsonVal.str port)] else []) ++
  (if secrets.length > 0 then
    [("secrets", JsonVal.obj (secrets.map (fun p => (p.1, JsonVal.str p.2))))]
   else [])

/-- RunCommand request body, cmd/api.go lines 219-225. -/
def runCommandReq (sandboxName command : String) : List (String × JsonVal) :=
  [("command", JsonVal.str command)] ++
  (if sandboxName ≠ "" then [("id", JsonVal.str sandboxName)] else [])

/-- RunPython request body, cmd/api.go lines 413-423. -/
def runPythonReq (sandboxName code entrypoint : String) : List (String × JsonVal) :=
  [("code", JsonVal.str code)] ++
  (if sandboxName ≠ "" then [("id", JsonVal.str sandboxName)] else []) ++
  (if entrypoint ≠ "" then [("entrypoint", JsonVal.str entrypoint)] else [])

/-- UpdateFile request body, cmd/api.go lines 332-339. -/
def updateFileReq (path content fileType writeMode : String) : List (String × JsonVal) :=
  [("path", JsonVal.str path), ("content", JsonVal.str content), ("type", JsonVal.str fileType)] ++
  (if writeMode ≠ "" then [("write_mode", JsonVal.str writeMode)] else [])

/-! ## Configuration (cmd/config.go) -/

/-- isAuthenticated, cmd/config.go lines 112-114: a non-empty configured
token counts as authenticated; no validity check happens locally. -/
def isAuthenticated (token : String) : Bool :=
  token ≠ ""

/-- requireAuth, cmd/config.go lines 116-121. -/
def requireAuth (token : String) : Except String Unit :=
  if !(isAuthenticated token) then
    .error "not authenticated. Please run 'everywhere login' first"
  else
    .ok ()

/-! ## Archive Builder (cmd/commands.go lines 623-722)

The local filesystem is modelled as a mutual inductive tree of regular
files and directories.  A directory's children are stored in the order
filepath.Walk visits them (lexical order of names); all claims below are
order-insensitive so the theorems do not depend on that order.  Symlinks
and other irregular entries are out of scope (the spec talks about regular
files and directories only). -/

mutual
inductive FSEntry where
  | file (name : String) (content : List Nat)
  | dir (name : String) (children : FSList)
inductive FSList where
  | nil
  | cons (head : FSEntry) (tail : FSList)
end

/-- The name of an entry (os.FileInfo.Name). -/
def FSEntry.name : FSEntry → String
  | .file n _ => n
  | .dir n _ => n

/-- What filepath.Walk reports about an entry besides its path. -/
inductive EntryKind where
  | file (content : List Nat)
  | directory
deriving Repr, DecidableEq

mutual
/-- filepath.Walk restricted to one entry: the entry itself first (path is
the list of path components below the walk root), then its children in
order, each child path prefixed with the entry name. -/
def walkE : FSEntry → List (List String × EntryKind)
  | .file n c => [([n], EntryKind.file c)]
  | .dir n cs => ([n], EntryKind.directory) :: (walkL cs).map (fun p => (n :: p.1, p.2))
/-- filepath.Walk over a list of sibling entries, in order. -/
def walkL : FSList → List (List String × EntryKind)
  | .nil => []
  | .cons e t => walkE e ++ walkL t
end

/-- A produced zip entry: its name, whether it is a directory entry (those
carry no content), its compression method (8 is zip.Deflate, 0 the
zip.Store default left by zip.FileInfoHeader), and the copied bytes. -/
structure ZipEntry where
  name : String
  isDirEntry : Bool
  method : Nat
  content : List Nat
deriving Repr, DecidableEq

/-- The relative path string computed by filepath.Rel(dir, path) inside
the walk callback: "." for the root itself, otherwise the components
joined with the host separator. -/
def relString (sep : Char) (comps : List String) : String :=
  if comps = [] then "." else joinSep (sepStr sep) comps

/-- strings.ReplaceAll(rel, string(filepath.Separator), "/"), commands.go
line 646. -/
def replaceSep (sep : Char) (s : String) : String :=
  ⟨s.data.map (fun c => if c = sep then '/' else c)⟩

/-- The walk callback of createZipFromDir, commands.go lines 633-676,
minus the I/O: skip the root (rel == "."), normalise separators, append a
trailing slash to directory entry names, give files the Deflate method and
copy their bytes. -/
def zipEntryFor (sep : Char) (comps : List String) (k : EntryKind) : Option ZipEntry :=
  let rel := relString sep comps
  if rel = "." then none
  else
    let zipName := replaceSep sep rel
    match k with
    | EntryKind.directory =>
      some ⟨if hasSuffix zipName "/" then zipName else zipName ++ "/", true, 0, []⟩
    | EntryKind.file c =>
      some ⟨zipName, false, 8, c⟩

/-- createZipFromDir, commands.go lines 623-682: the sequence of zip
entries written for the walk of the root directory (the root itself is
visited first, with relative path "."). -/
def createZipFromDir (sep : Char) (root : FSList) : List ZipEntry :=
  (([], EntryKind.directory) :: walkL root).filterMap (fun p => zipEntryFor sep p.1 p.2)

/-! Specification-side definitions for claim C3, following the spec's
words: the entries strictly under the input root, each relativized to the
root with forward-slash separators; directories are named with a trailing
slash and carry no content; files are deflate-compressed with their bytes
verbatim; no entry for the root itself. -/

mutual
/-- Modelled from the spec: the slash-separated relative paths of an entry
and everything below it. -/
def specPathsE : FSEntry → List (String × EntryKind)
  | .file n c => [(n, EntryKind.file c)]
  | .dir n cs => (n, EntryKind.directory) :: (specPathsL cs).map (fun p => (n ++ "/" ++ p.1, p.2))
/-- Modelled from the spec: slash-separated relative paths below a list of
sibling entries. -/
def specPathsL : FSList → List (String × EntryKind)
  | .nil => []
  | .cons e t => specPathsE e ++ specPathsL t
end

/-- Modelled from the spec: the archive expected for a directory input —
one entry per proper descendant of the root, directories with a trailing
slash and no content, files deflate-compressed verbatim. -/
def specArchive (root : FSList) : List ZipEntry :=
  (specPathsL root).map (fun p =>
    match p.2 with
    | EntryKind.directory => ⟨p.1 ++ "/", true, 0, []⟩
    | EntryKind.file c => ⟨p.1, false, 8, c⟩)

/-- Well-formedness of a file or directory name on a filesystem whose path
separator is sep: non-empty, not the special name ".", and containing
neither the host separator nor a forward slash. -/
def goodNameB (sep : Char) (n : String) : Bool :=
  !(n = "") && !(n = ".") && !(n.data.contains sep) && !(n.data.contains '/')

/-- Names of the entries in a sibling list. -/
def namesL : FSList → List String
  | .nil => []
  | .cons e t => e.name :: namesL t

mutual
/-- Well-formed tree: every name is well formed and sibling names are
pairwise distinct (as on a real filesystem). -/
def wfE (sep : Char) : FSEntry → Bool
  | .file n _ => goodNameB sep n
  | .dir n cs => goodNameB sep n && wfL sep cs
def wfL (sep : Char) : FSList → Bool
  | .nil => true
  | .cons e t => wfE sep e && wfL sep t && !((namesL t).contains e.name)
end

/-- Model of filepath.Base: empty path gives ".", trailing separators are
stripped, the part after the last separator remains, and a path of only
separators gives the separator itself. -/
def baseNameGo (sep : Char) (path : String) : String :=
  if path = "" then "."
  else
    let stripped := (path.data.reverse.dropWhile (fun c => c = sep)).reverse
    let last := (stripped.reverse.takeWhile (fun c => c ≠ sep)).reverse
    if last = [] then sepStr sep else ⟨last⟩

/-- createZipFromFile, commands.go lines 684-722: a single entry named by
filepath.Base of the input path, with the Deflate method and the file
bytes copied verbatim. -/
def createZipFromFile (sep : Char) (filePath : String) (content : List Nat) :
    List ZipEntry :=
  [⟨baseNameGo sep filePath, false, 8, content⟩]

/-! ## Upload format detection and the run-command dispatch
(cmd/commands.go) -/

/-- The auto-detection branch of the files upload command, commands.go
lines 480-485. -/
def detectFormat (archivePath : String) : String :=
  let lower := toLowerStr archivePath
  if hasSuffix lower ".tar.gz" || hasSuffix lower ".tgz" then "tar.gz" else "zip"

/-- Format resolution of the files upload command, commands.go lines
479-486: an explicit --format flag wins, otherwise auto-detect from the
final archive path. -/
def resolveFormat (format archivePath : String) : String :=
  if format = "" then detectFormat archivePath else format

/-- Modelled from the spec: case-insensitive suffix comparison (the claim
says the path is compared case-insensitively against the extensions). -/
def suffixCI (s pat : String) : Prop :=
  pat.data.map Char.toLower <:+ s.data.map Char.toLower

/-- Decidable version of suffixCI, for concrete evaluation. -/
def suffixCIb (s pat : String) : Bool :=
  (pat.data.map Char.toLower).reverse.isPrefixOf (s.data.map Char.toLower).reverse

/-- Result of os.Stat as the commands use it. -/
inductive StatRes where
  | statError (msg : String)
  | statDir
  | statFile
deriving Repr, DecidableEq

/-- Model of filepath.Ext: the suffix of the final path element starting
at its last dot, or the empty string when the final element has no dot. -/
def extName (sep : Char) (path : String) : String :=
  let revSeg := path.data.reverse.takeWhile (fun c => c ≠ sep)
  if revSeg.contains '.' then ⟨(revSeg.takeWhile (fun c => c ≠ '.') ++ ['.']).reverse⟩
  else ""

/-! ## Environment pair parsing (sandboxes create, commands.go 168-180) -/

/-- strings.SplitN(kv, "=", 2). -/
def splitN2Eq (kv : String) : List String :=
  if kv.data.contains '=' then
    [⟨kv.data.takeWhile (fun c => c ≠ '=')⟩, ⟨(kv.data.dropWhile (fun c => c ≠ '=')).tail⟩]
  else [kv]

/-- Go map insertion on the key/value list model: overwrite an existing
key, otherwise append. -/
def mapInsert (l : List (String × String)) (k v : String) : List (String × String) :=
  if l.any (fun p => p.1 = k) then
    l.map (fun p => if p.1 = k then (k, v) else p)
  else l ++ [(k, v)]

/-- The env-pair loop of the sandboxes create command, commands.go lines
168-180: split at the first "=", trim both halves, reject a malformed pair
or an empty key. -/
def parseEnv : List String → Except String (List (String × String))
  | [] => .ok []
  | kv :: rest =>
    match splitN2Eq kv with
    | [k0, v0] =>
      let k := trimStr k0
      let v := trimStr v0
      if k = "" then .error ("empty env key in '" ++ kv ++ "'")
      else
        match parseEnv rest with
        | .error e => .error e
        | .ok m => .ok (mapInsert m k v)
    | _ => .error ("invalid env '" ++ kv ++ "' (expected KEY=VALUE)")

/-! ## Command dispatch (cmd/commands.go)

Each command handler is modelled as a function from its flags/arguments,
the configured token, and an oracle for the external world, to the pair of
its outcome (the error RunE returns, or success) and the list of HTTP
requests it issued, in order.  The oracle packages the HTTP transport, the
JSON decoders, stdin, and the local filesystem. -/

/-- The external world as the commands observe it. -/
structure Oracle where
  net : Request → HttpResponse
  decodeAuth : String → Except String AuthStatusResponse
  decodeSandboxList : String → Except String (List sandbox)
  decodeSandbox : String → Except String sandbox
  decodeExec : String → Except String ExecData
  decodeFiles : String → Except String (List ProjectFile)
  clearAuthResult : Except String Unit
  stdinLine : Except String String
  stdinAll : Except String String
  stdinIsTTY : Bool
  readFile : String → Except String String
  statPath : String → StatRes
  pathSep : Char
  zipDir : String → Except String String
  zipFile : String → Except String String
  writeOut : String → Except String Unit

/-- GET /auth/status (APIClient.GetAuthStatus). -/
def getAuthStatusOp (o : Oracle) : Except String AuthStatusResponse × List Request :=
  let req : Request := ⟨"GET", "/auth/status", []⟩
  (getAuthStatusHandle (o.net req) o.decodeAuth, [req])

/-- GET /sandbox (APIClient.ListSandboxes). -/
def listSandboxesOp (o : Oracle) : Except String (List sandbox) × List Request :=
  let req : Request := ⟨"GET", "/sandbox", []⟩
  (listSandboxesHandle (o.net req) o.decodeSandboxList, [req])

/-- POST /sandbox (APIClient.CreateSandbox). -/
def createSandboxOp (o : Oracle) (name port : String)
    (secrets : List (String × String)) : Except String sandbox × List Request :=
  let req : Request := ⟨"POST", "/sandbox", createSandboxReq name port secrets⟩
  (createSandboxHandle (o.net req) o.decodeSandbox, [req])

/-- DELETE /sandbox/name (APIClient.DeleteSandbox). -/
def deleteSandboxOp (o : Oracle) (name : String) : Except String Unit × List Request :=
  let req : Request := ⟨"DELETE", "/sandbox/" ++ name, []⟩
  (deleteSandboxHandle (o.net req), [req])

/-- PUT /sandbox/name/start (APIClient.StartSandbox). -/
def startSandboxOp (o : Oracle) (name : String) : Except String Unit × List Request :=
  let req : Request := ⟨"PUT", "/sandbox/" ++ name ++ "/start", []⟩
  (startSandboxHandle (o.net req), [req])

/-- PUT /sandbox/name/stop (APIClient.StopSandbox). -/
def stopSandboxOp (o : Oracle) (name : String) : Except String Unit × List Request :=
  let req : Request := ⟨"PUT", "/sandbox/" ++ name ++ "/stop", []⟩
  (stopSandboxHandle (o.net req), [req])

/-- POST /sandbox/exec (APIClient.RunCommand). -/
def runCommandOp (o : Oracle) (sandboxName command : String) :
    Except String String × List Request :=
  let req : Request := ⟨"POST", "/sandbox/exec", runCommandReq sandboxName command⟩
  (runCommandHandle (o.net req) o.decodeExec, [req])

/-- POST /sandbox/run (APIClient.RunPython). -/
def runPythonOp (o : Oracle) (sandboxName code entrypoint : String) :
    Except String String × List Request :=
  let req : Request := ⟨"POST", "/sandbox/run", runPythonReq sandboxName code entrypoint⟩
  (runPythonHandle (o.net req) o.decodeExec, [req])

/-- GET /sandbox/id/zip (APIClient.DownloadZip). -/
def downloadZipOp (o : Oracle) (sandboxID dir : String) :
    Except String (String × String) × List Request :=
  let endpoint := "/sandbox/" ++ sandboxID ++ "/zip" ++ (if dir ≠ "" then "?dir=" ++ dir else "")
  let req : Request := ⟨"GET", endpoint, []⟩
  (downloadZipHandle (o.net req), [req])

/-- GET /sandbox/id/files (APIClient.ListFiles). -/
def listFilesOp (o : Oracle) (sandboxID dir : String) (maxDepth : Int) :
    Except String (List ProjectFile) × List Request :=
  let params := (if dir ≠ "" then ["dir=" ++ dir] else []) ++
    (if maxDepth > 0 then ["max_depth=" ++ toString maxDepth] else [])
  let endpoint := "/sandbox/" ++ sandboxID ++ "/files" ++
    (if params.length > 0 then "?" ++ joinSep "&" params else "")
  let req : Request := ⟨"GET", endpoint, []⟩
  (listFilesHandle (o.net req) o.decodeFiles, [req])

/-- PUT /sandbox/id/files (APIClient.UpdateFile). -/
def updateFileOp (o : Oracle) (sandboxID path content fileType writeMode : String) :
    Except String Unit × List Request :=
  let req : Request := ⟨"PUT", "/sandbox/" ++ sandboxID ++ "/files",
    updateFileReq path content fileType writeMode⟩
  (updateFileHandle (o.net req), [req])

/-- POST /sandbox/id/upload (APIClient.UploadArchive; the body is
multipart, with the archive file plus the path and format fields, so the
Request body list is left empty).  Opening the archive happens before the
request; an open failure aborts without any network call. -/
def uploadArchiveOp (o : Oracle) (sandboxID archivePath targetPath format : String) :
    Except String Unit × List Request :=
  let _fmt := if format = "" then "zip" else format
  let _path := targetPath
  match o.readFile archivePath with
  | .error e => (.error ("failed to open archive: " ++ e), [])
  | .ok _ =>
    let req : Request := ⟨"POST", "/sandbox/" ++ sandboxID ++ "/upload", []⟩
    (uploadArchiveHandle (o.net req), [req])

/-- The outcome/request pair every modelled command produces. -/
abbrev CmdResult := Except String Unit × List Request

/-- Discard the value of an operation, keeping error or success (the
command handlers print the value and return nil). -/
def opDone {α : Type} (r : Except String α × List Request) : CmdResult :=
  match r.1 with
  | .error e => (.error e, r.2)
  | .ok _ => (.ok (), r.2)

/-- sandboxes list, commands.go lines 124-152. -/
def sandboxListRun (o : Oracle) (token : String) : CmdResult :=
  match requireAuth token with
  | .error e => (.error e, [])
  | .ok _ => opDone (listSandboxesOp o)

/-- sandboxes create, commands.go lines 154-208: requireAuth, then parse
the repeated --env pairs, then one POST /sandbox. -/
def sandboxCreateRun (o : Oracle) (token name port : String)
    (envPairs : List String) : CmdResult :=
  match requireAuth token with
  | .error e => (.error e, [])
  | .ok _ =>
    match parseEnv envPairs with
    | .error e => (.error e, [])
    | .ok secrets => opDone (createSandboxOp o name port secrets)

/-- sandboxes delete, commands.go lines 210-247: requireAuth, then unless
--force an interactive y/yes confirmation, then one DELETE. -/
def sandboxDeleteRun (o : Oracle) (token name : String) (force : Bool) : CmdResult :=
  match requireAuth token with
  | .error e => (.error e, [])
  | .ok _ =>
    if force then opDone (deleteSandboxOp o name)
    else
      match o.stdinLine with
      | .error e => (.error e, [])
      | .ok resp =>
        match toLowerStr (trimStr resp) with
        | "y" => opDone (deleteSandboxOp o name)
        | "yes" => opDone (deleteSandboxOp o name)
        | _ => (.ok (), [])

/-- sandboxes start, commands.go lines 249-268. -/
def sandboxStartRun (o : Oracle) (token name : String) : CmdResult :=
  match requireAuth token with
  | .error e => (.error e, [])
  | .ok _ => opDone (startSandboxOp o name)

/-- sandboxes stop, commands.go lines 270-289. -/
def sandboxStopRun (o : Oracle) (token name : String) : CmdResult :=
  match requireAuth token with
  | .error e => (.error e, [])
  | .ok _ => opDone (stopSandboxOp o name)

/-- files list, commands.go lines 305-343 (dir fixed to "", max depth 4). -/
def filesListRun (o : Oracle) (token sandboxArg : String) : CmdResult :=
  match requireAuth token with
  | .error e => (.error e, [])
  | .ok _ => opDone (listFilesOp o sandboxArg "" 4)

/-- files download, commands.go lines 345-384: requireAuth, one GET of the
zip stream, then write the stream to the output file (the downloaded
filename is used when no --output flag was given). -/
def filesDownloadRun (o : Oracle) (token sandboxArg output : String) : CmdResult :=
  match requireAuth token with
  | .error e => (.error e, [])
  | .ok _ =>
    match downloadZipOp o sandboxArg "" with
    | (.error e, reqs) => (.error e, reqs)
    | (.ok bf, reqs) =>
      let out := if output = "" then bf.2 else output
      match o.writeOut out with
      | .error e => (.error e, reqs)
      | .ok _ => (.ok (), reqs)

/-- files update, commands.go lines 386-437: requireAuth, then content
from --file or stdin (a terminal stdin with no --file is an error before
any request), then one PUT. -/
def filesUpdateRun (o : Oracle) (token sandboxArg path localFile : String)
    (appendMode : Bool) : CmdResult :=
  match requireAuth token with
  | .error e => (.error e, [])
  | .ok _ =>
    let contentRes : Except String String :=
      if localFile ≠ "" then
        match o.readFile localFile with
        | .error e => .error ("failed to read local file: " ++ e)
        | .ok data => .ok data
      else if o.stdinIsTTY then
        .error "no input provided. Use --file or pipe content via stdin"
      else
        match o.stdinAll with
        | .error e => .error ("failed to read from stdin: " ++ e)
        | .ok data => .ok data
    match contentRes with
    | .error e => (.error e, [])
    | .ok content =>
      let mode := if appendMode then "append" else "overwrite"
      opDone (updateFileOp o sandboxArg path content "file" mode)

/-- files upload, commands.go lines 439-501: requireAuth, stat the input,
zip a directory (or a file that is not already an archive) into a
temporary file, resolve the format, then one multipart POST. -/
def filesUploadRun (o : Oracle) (token sandboxArg inputPath targetPath formatFlag : String) :
    CmdResult :=
  match requireAuth token with
  | .error e => (.error e, [])
  | .ok _ =>
    match o.statPath inputPath with
    | .statError e => (.error ("path not accessible: " ++ e), [])
    | .statDir =>
      match o.zipDir inputPath with
      | .error e => (.error ("failed to zip directory: " ++ e), [])
      | .ok tmpZip =>
        opDone (uploadArchiveOp o sandboxArg tmpZip targetPath
          (resolveFormat formatFlag tmpZip))
    | .statFile =>
      let lowerIn := toLowerStr inputPath
      if hasSuffix lowerIn ".zip" || hasSuffix lowerIn ".tar.gz" || hasSuffix lowerIn ".tgz" then
        opDone (uploadArchiveOp o sandboxArg inputPath targetPath
          (resolveFormat formatFlag inputPath))
      else
        match o.zipFile inputPath with
        | .error e => (.error ("failed to zip file: " ++ e), [])
        | .ok tmpZip =>
          opDone (uploadArchiveOp o sandboxArg tmpZip targetPath
            (resolveFormat formatFlag tmpZip))

/-- exec, commands.go lines 503-528. -/
def execRun (o : Oracle) (token sandboxFlag command : String) : CmdResult :=
  match requireAuth token with
  | .error e => (.error e, [])
  | .ok _ => opDone (runCommandOp o sandboxFlag command)

/-- runFile, commands.go lines 591-621: read the file, require the .py
extension, then run it as Python. -/
def runFileRun (o : Oracle) (sandboxFlag filePath : String) : CmdResult :=
  match o.readFile filePath with
  | .error e => (.error ("failed to read file " ++ filePath ++ ": " ++ e), [])
  | .ok code =>
    let ext := toLowerStr (extName o.pathSep filePath)
    if ext = ".py" then opDone (runPythonOp o sandboxFlag code "")
    else
      (.error ("only Python .py files are supported. File extension '" ++ ext ++
        "' is not supported"), [])

/-- run, commands.go lines 530-567: requireAuth; an existing regular file
is run via runFile, an existing directory is an error; a non-existing path
is inline code unless it looks like a file path (a .py suffix,
case-insensitively, or a host path separator), which is an error before
any request. -/
def runRun (o : Oracle) (token sandboxFlag input : String) : CmdResult :=
  match requireAuth token with
  | .error e => (.error e, [])
  | .ok _ =>
    match o.statPath input with
    | .statDir => (.error ("file not found or is a directory: " ++ input), [])
    | .statFile => runFileRun o sandboxFlag input
    | .statError _ =>
      if hasSuffix (toLowerStr input) ".py" || input.data.contains o.pathSep then
        (.error ("file not found or is a directory: " ++ input), [])
      else
        opDone (runPythonOp o sandboxFlag input "")

/-- logout, commands.go lines 92-104: clear the stored credentials; no
auth check and no network request. -/
def logoutRun (o : Oracle) (token : String) : CmdResult :=
  let _tok := token
  match o.clearAuthResult with
  | .error e => (.error e, [])
  | .ok _ => (.ok (), [])

/-- config show, commands.go lines 569-589: print-only; no auth check and
no network request. -/
def configShowRun (o : Oracle) (token : String) : CmdResult :=
  let _tok := token
  let _o := o
  (.ok (), [])

/-! ## Auxiliary definitions used by the proofs and witnesses -/

/-- Char-list version of joining components with a separator character;
used to reason about joinSep through String.data. -/
def charsJoinC (sep : Char) : List (List Char) → List Char
  | [] => []
  | [a] => a
  | a :: b :: rest => a ++ sep :: charsJoinC sep (b :: rest)

/-- Split a char list at every forward slash (inverse of charsJoinC for
slash-free components); used to prove injectivity of entry names. -/
def splitSlash : List Char → List (List Char)
  | [] => [[]]
  | c :: r =>
    if c = '/' then [] :: splitSlash r
    else
      match splitSlash r with
      | [] => [[c]]
      | h :: t => (c :: h) :: t

/-- A concrete world for the closed counterexamples and witnesses. -/
def testOracle : Oracle where
  net := fun _ => ⟨200, "", ""⟩
  decodeAuth := fun _ => .error "decode"
  decodeSandboxList := fun _ => .ok []
  decodeSandbox := fun _ => .error "decode"
  decodeExec := fun _ => .ok ⟨"", "", ""⟩
  decodeFiles := fun _ => .ok []
  clearAuthResult := .ok ()
  stdinLine := .ok "y"
  stdinAll := .ok ""
  stdinIsTTY := true
  readFile := fun _ => .error "no such file"
  statPath := fun _ => .statError "no such file"
  pathSep := '/'
  zipDir := fun _ => .error "zip"
  zipFile := fun _ => .error "zip"
  writeOut := fun _ => .ok ()

/-- A concrete directory tree (children listed in walk order) for the
archive-builder witness: a file, then a subdirectory holding one file. -/
def demoTree : FSList :=
  .cons (.file "b.txt" [104, 105])
    (.cons (.dir "sub" (.cons (.file "c.py" [112]) .nil)) .nil)

/-! # Theorems -/

/-! ## General helper lemmas -/

theorem strDataAppend (s t : String) : (s ++ t).data = s.data ++ t.data := rfl

theorem stringDataInj {s t : String} (h : s.data = t.data) : s = t := by
  cases s; cases t; cases h; rfl

theorem stringNeOfData {s t : String} (h : s.data ≠ t.data) : s ≠ t :=
  fun he => h (he ▸ rfl)

theorem dataNeNil {s : String} : s ≠ "" ↔ s.data ≠ [] := by
  constructor
  · intro h hd
    exact h (stringDataInj hd)
  · intro h he
    exact h (by rw [he])

theorem sepStrData (c : Char) : (sepStr c).data = [c] := rfl

theorem mkData (l : List Char) : (String.mk l).data = l := rfl

theorem suffixOfAppend (pre body : String) : strEndsWith (pre ++ body) body := by
  unfold strEndsWith
  rw [strDataAppend]
  exact List.suffix_append pre.data body.data

/-! ## Claim C10: CreateSandbox request body -/

/-- Claim C10: CreateSandbox builds its JSON request body with the name
key exactly when the name argument is non-empty, the port key exactly
when the port argument is non-empty, and the secrets key exactly when the
secrets map is non-empty; with all three empty the body is the empty JSON
object. -/
theorem claim_c10 (name port : String) (secrets : List (String × String)) :
    (("name" ∈ (createSandboxReq name port secrets).map Prod.fst) ↔ name ≠ "") ∧
    (("port" ∈ (createSandboxReq name port secrets).map Prod.fst) ↔ port ≠ "") ∧
    (("secrets" ∈ (createSandboxReq name port secrets).map Prod.fst) ↔ secrets ≠ []) ∧
    createSandboxReq "" "" [] = [] := by
  refine ⟨?_, ?_, ?_, rfl⟩ <;>
    by_cases hn : name = "" <;> by_cases hp : port = "" <;> by_cases hs : secrets = [] <;>
    simp [createSandboxReq, hn, hp, hs, List.length_pos]

/-! ## Claim C6: upload format auto-detection -/

theorem lowerSuffixEq (p q : String) (h : q.data.map Char.toLower = q.data) :
    hasSuffix (toLowerStr p) q = suffixCIb p q := by
  unfold hasSuffix suffixCIb toLowerStr
  rw [h]

theorem suffixCIbIff (p q : String) : suffixCIb p q = true ↔ suffixCI p q := by
  unfold suffixCIb suffixCI
  rw [ List.isPrefixOf_iff_prefix]
  exact List.reverse_prefix

/-- Claim C6: with no format flag, the declared upload format is tar.gz
exactly when the final archive path ends in .tar.gz or .tgz compared
case-insensitively, and zip in every other case. -/
theorem claim_c6 (archivePath : String) :
    (resolveFormat "" archivePath =
      if suffixCIb archivePath ".tar.gz" || suffixCIb archivePath ".tgz"
      then "tar.gz" else "zip") ∧
    (∀ q, suffixCIb archivePath q = true ↔ suffixCI archivePath q) := by
  constructor
  · show (if (hasSuffix (toLowerStr archivePath) ".tar.gz" ||
        hasSuffix (toLowerStr archivePath) ".tgz") = true then "tar.gz" else "zip") = _
    rw [lowerSuffixEq archivePath ".tar.gz" (by decide),
      lowerSuffixEq archivePath ".tgz" (by decide)]
  · exact fun q => suffixCIbIff archivePath q

/-! ## Claim C2: execution endpoints surface a non-empty error field -/

/-- Claim C2: for RunCommand and RunPython, whenever the decoded payload's
error field is non-empty — even with HTTP status 200 — the operation fails
with an ExecutionError whose message contains exactly that error string,
and the output field is not returned; output is returned only when error
is the empty string. -/
theorem claim_c2 (resp : HttpResponse) (d : ExecData) (h200 : resp.statusCode = 200) :
    (d.error ≠ "" →
      runCommandHandle resp (fun _ => .ok d) = .error ("command failed: " ++ d.error) ∧
      (∀ out, runCommandHandle resp (fun _ => .ok d) ≠ .ok out) ∧
      strContains ("command failed: " ++ d.error) d.error ∧
      runPythonHandle resp (fun _ => .ok d) = .error ("python execution failed: " ++ d.error) ∧
      (∀ out, runPythonHandle resp (fun _ => .ok d) ≠ .ok out) ∧
      strContains ("python execution failed: " ++ d.error) d.error) ∧
    (d.error = "" →
      runCommandHandle resp (fun _ => .ok d) = .ok d.output ∧
      runPythonHandle resp (fun _ => .ok d) = .ok d.output) := by
  constructor
  · intro herr
    refine ⟨by simp [runCommandHandle, h200, herr], ?_,
      ⟨"command failed: ".data, [], by simp [strDataAppend]⟩,
      by simp [runPythonHandle, h200, herr], ?_,
      ⟨"python execution failed: ".data, [], by simp [strDataAppend]⟩⟩
    · intro out
      simp [runCommandHandle, h200, herr]
    · intro out
      simp [runPythonHandle, h200, herr]
  · intro herr
    exact ⟨by simp [runCommandHandle, h200, herr], by simp [runPythonHandle, h200, herr]⟩

/-- Witness for claim C2 at a concrete 200 response and decoded payloads
with a non-empty and with an empty error field. -/
theorem claim_c2_witness :
    (runCommandHandle ⟨200, "", "raw"⟩ (fun _ => .ok ⟨"out", "boom", "s"⟩) =
      .error "command failed: boom" ∧
      runPythonHandle ⟨200, "", "raw"⟩ (fun _ => .ok ⟨"out", "boom", "s"⟩) =
      .error "python execution failed: boom") ∧
    (runCommandHandle ⟨200, "", "raw"⟩ (fun _ => .ok ⟨"out", "", "s"⟩) = .ok "out" ∧
      runPythonHandle ⟨200, "", "raw"⟩ (fun _ => .ok ⟨"out", "", "s"⟩) = .ok "out") := by
  have h1 := claim_c2 ⟨200, "", "raw"⟩ ⟨"out", "boom", "s"⟩ rfl
  have h2 := claim_c2 ⟨200, "", "raw"⟩ ⟨"out", "", "s"⟩ rfl
  exact ⟨⟨(h1.1 (by decide)).1, (h1.1 (by decide)).2.2.2.1⟩,
    ⟨(h2.2 rfl).1, (h2.2 rfl).2⟩⟩

/-! ## Claim C4: 401 on the auth-status check -/

/-- Claim C4: a 401 response to the auth-status check yields an
AuthenticationError, and that error is distinguished from the RemoteError
produced for every other non-200 status (the two messages never
coincide). -/
theorem claim_c4 (resp : HttpResponse) (dec : String → Except String AuthStatusResponse) :
    (resp.statusCode = 401 →
      getAuthStatusHandle resp dec = .error ("authentication failed: " ++ resp.body)) ∧
    (resp.statusCode ≠ 200 → resp.statusCode ≠ 401 →
      getAuthStatusHandle resp dec =
        .error ("failed to get auth status: " ++ toString resp.statusCode ++ " - " ++ resp.body) ∧
      ∀ b : String,
        ("failed to get auth status: " ++ toString resp.statusCode ++ " - " ++ resp.body) ≠
          "authentication failed: " ++ b) := by
  constructor
  · intro h401
    simp [getAuthStatusHandle, h401]
  · intro h200 h401
    refine ⟨by simp [getAuthStatusHandle, h200, h401], ?_⟩
    intro b heq
    have hd := congrArg String.data heq
    simp only [strDataAppend, List.cons_append] at hd
    injection hd with h1 _
    exact absurd h1 (by decide)

/-- Witness for claim C4 at a 401 response and at a 500 response. -/
theorem claim_c4_witness :
    getAuthStatusHandle ⟨401, "", "denied"⟩ (fun _ => .error "decode") =
      .error "authentication failed: denied" ∧
    getAuthStatusHandle ⟨500, "", "oops"⟩ (fun _ => .error "decode") =
      .error "failed to get auth status: 500 - oops" ∧
    ∀ b : String, ("failed to get auth status: " ++ toString (500 : Nat) ++ " - " ++ "oops") ≠
      "authentication failed: " ++ b := by
  have h1 := (claim_c4 ⟨401, "", "denied"⟩ (fun _ => .error "decode")).1 rfl
  have h2 := (claim_c4 ⟨500, "", "oops"⟩ (fun _ => .error "decode")).2 (by decide) (by decide)
  exact ⟨h1, h2.1, h2.2⟩

/-! ## Claim C1: remote errors and what their message carries -/

/-- Counterexample to claim C1 as stated: on a 500 response with body
"boom", ListSandboxes and DeleteSandbox fail with messages that carry the
raw body but do not contain the numeric status code 500 anywhere. -/
theorem claim_c1_counterexample :
    listSandboxesHandle ⟨500, "", "boom"⟩ (fun _ => .ok []) =
      .error "failed to list sandboxes: boom" ∧
    ¬ strContains "failed to list sandboxes: boom" "500" ∧
    deleteSandboxHandle ⟨500, "", "boom"⟩ = .error "failed to delete sandbox: boom" ∧
    ¬ strContains "failed to delete sandbox: boom" "500" := by
  refine ⟨rfl, ?_, rfl, ?_⟩ <;> · unfold strContains; decide

/-- Claim C1 as amended: every API client operation, on a response whose
status is outside that operation's success set, fails with an error whose
message carries the raw response body text verbatim (as its suffix), and
the error path is independent of JSON decoding (the same error results for
every decoder); the numeric status code additionally appears in the
message only for the auth-status operation (on statuses other than 200 and
401, the 401 case being the authentication error of claim C4). -/
theorem claim_c1_amended (resp : HttpResponse) :
    (resp.statusCode ≠ 200 →
      (∃ m, (∀ dec, listSandboxesHandle resp dec = .error m) ∧ strEndsWith m resp.body) ∧
      (∃ m, deleteSandboxHandle resp = .error m ∧ strEndsWith m resp.body) ∧
      (∃ m, startSandboxHandle resp = .error m ∧ strEndsWith m resp.body) ∧
      (∃ m, stopSandboxHandle resp = .error m ∧ strEndsWith m resp.body) ∧
      (∃ m, (∀ dec, runCommandHandle resp dec = .error m) ∧ strEndsWith m resp.body) ∧
      (∃ m, (∀ dec, runPythonHandle resp dec = .error m) ∧ strEndsWith m resp.body) ∧
      (∃ m, downloadZipHandle resp = .error m ∧ strEndsWith m resp.body) ∧
      (∃ m, (∀ dec, listFilesHandle resp dec = .error m) ∧ strEndsWith m resp.body) ∧
      (∃ m, updateFileHandle resp = .error m ∧ strEndsWith m resp.body) ∧
      (∃ m, uploadArchiveHandle resp = .error m ∧ strEndsWith m resp.body)) ∧
    (resp.statusCode ≠ 200 → resp.statusCode ≠ 201 →
      ∃ m, (∀ dec, createSandboxHandle resp dec = .error m) ∧ strEndsWith m resp.body) ∧
    (resp.statusCode ≠ 200 → resp.statusCode ≠ 401 →
      ∃ m, (∀ dec, getAuthStatusHandle resp dec = .error m) ∧ strEndsWith m resp.body ∧
        strContains m (toString resp.statusCode)) := by
  refine ⟨?_, ?_, ?_⟩
  · intro h200
    exact ⟨⟨"failed to list sandboxes: " ++ resp.body,
        fun dec => by simp [listSandboxesHandle, h200], suffixOfAppend _ _⟩,
      ⟨"failed to delete sandbox: " ++ resp.body,
        by simp [deleteSandboxHandle, h200], suffixOfAppend _ _⟩,
      ⟨"failed to start sandbox: " ++ resp.body,
        by simp [startSandboxHandle, h200], suffixOfAppend _ _⟩,
      ⟨"failed to stop sandbox: " ++ resp.body,
        by simp [stopSandboxHandle, h200], suffixOfAppend _ _⟩,
      ⟨"failed to run command: " ++ resp.body,
        fun dec => by simp [runCommandHandle, h200], suffixOfAppend _ _⟩,
      ⟨"failed to run python: " ++ resp.body,
        fun dec => by simp [runPythonHandle, h200], suffixOfAppend _ _⟩,
      ⟨"failed to download zip: " ++ resp.body,
        by simp [downloadZipHandle, h200], suffixOfAppend _ _⟩,
      ⟨"failed to list files: " ++ resp.body,
        fun dec => by simp [listFilesHandle, h200], suffixOfAppend _ _⟩,
      ⟨"failed to update file: " ++ resp.body,
        by simp [updateFileHandle, h200], suffixOfAppend _ _⟩,
      ⟨"failed to upload archive: " ++ resp.body,
        by simp [uploadArchiveHandle, h200], suffixOfAppend _ _⟩⟩
  · intro h200 h201
    exact ⟨"failed to create sandbox: " ++ resp.body,
      fun dec => by simp [createSandboxHandle, h200, h201], suffixOfAppend _ _⟩
  · intro h200 h401
    refine ⟨"failed to get auth status: " ++ toString resp.statusCode ++ " - " ++ resp.body,
      fun dec => by simp [getAuthStatusHandle, h200, h401], ?_, ?_⟩
    · show resp.body.data <:+ _
      simp only [strDataAppend, List.append_assoc]
      exact (List.suffix_append _ resp.body.data).trans
        (List.suffix_append _ _) |>.trans (List.suffix_append _ _)
    · exact ⟨"failed to get auth status: ".data, (" - " ++ resp.body).data,
        by simp [strDataAppend]⟩

/-- Witness for the amended claim C1 at a concrete 500 response. -/
theorem claim_c1_amended_witness :
    (∃ m, (∀ dec, listSandboxesHandle ⟨500, "", "boom"⟩ dec = .error m) ∧
      strEndsWith m "boom") ∧
    (∃ m, (∀ dec, createSandboxHandle ⟨500, "", "boom"⟩ dec = .error m) ∧
      strEndsWith m "boom") ∧
    (∃ m, (∀ dec, getAuthStatusHandle ⟨500, "", "boom"⟩ dec = .error m) ∧
      strEndsWith m "boom" ∧ strContains m (toString (500 : Nat))) := by
  have h := claim_c1_amended ⟨500, "", "boom"⟩
  exact ⟨(h.1 (by decide)).1, h.2.1 (by decide) (by decide), h.2.2 (by decide) (by decide)⟩

/-! ## Claim C5: requireAuth and the pre-network auth check -/

/-- Counterexample to claim C5 as stated: logout is a command other than
login, yet with an empty configured token it does not short-circuit with
the authentication error — it performs no auth check at all and succeeds
(it also issues no network request). -/
theorem claim_c5_counterexample :
    logoutRun testOracle "" = (.ok (), []) ∧
    (logoutRun testOracle "").1 ≠
      .error "not authenticated. Please run 'everywhere login' first" := by
  constructor
  · rfl
  · intro h
    simp [logoutRun, testOracle] at h

/-- Claim C5 as amended: requireAuth fails exactly when the configured
token is empty and succeeds for every non-empty token regardless of
validity; every command other than login that issues network requests
performs this check first and, with an empty token, short-circuits with
the authentication error before issuing any request; the two remaining
non-login commands (logout and config show) issue no network requests at
all. -/
theorem claim_c5_amended :
    (∀ token, (requireAuth token = .ok () ↔ token ≠ "") ∧
      (requireAuth token = .error "not authenticated. Please run 'everywhere login' first" ↔
        token = "")) ∧
    (∀ o : Oracle, ∀ name port sandboxArg path localFile inputPath targetPath
        formatFlag sandboxFlag command input : String,
      ∀ envPairs : List String, ∀ force appendMode : Bool, ∀ token : String,
      sandboxListRun o "" = (.error "not authenticated. Please run 'everywhere login' first", []) ∧
      sandboxCreateRun o "" name port envPairs =
        (.error "not authenticated. Please run 'everywhere login' first", []) ∧
      sandboxDeleteRun o "" name force =
        (.error "not authenticated. Please run 'everywhere login' first", []) ∧
      sandboxStartRun o "" name =
        (.error "not authenticated. Please run 'everywhere login' first", []) ∧
      sandboxStopRun o "" name =
        (.error "not authenticated. Please run 'everywhere login' first", []) ∧
      filesListRun o "" sandboxArg =
        (.error "not authenticated. Please run 'everywhere login' first", []) ∧
      filesDownloadRun o "" sandboxArg path =
        (.error "not authenticated. Please run 'everywhere login' first", []) ∧
      filesUpdateRun o "" sandboxArg path localFile appendMode =
        (.error "not authenticated. Please run 'everywhere login' first", []) ∧
      filesUploadRun o "" sandboxArg inputPath targetPath formatFlag =
        (.error "not authenticated. Please run 'everywhere login' first", []) ∧
      execRun o "" sandboxFlag command =
        (.error "not authenticated. Please run 'everywhere login' first", []) ∧
      runRun o "" sandboxFlag input =
        (.error "not authenticated. Please run 'everywhere login' first", []) ∧
      (logoutRun o token).2 = [] ∧ (configShowRun o token).2 = []) := by
  constructor
  · intro token
    by_cases h : token = "" <;> simp [requireAuth, isAuthenticated, h]
  · intro o name port sandboxArg path localFile inputPath targetPath formatFlag
      sandboxFlag command input envPairs force appendMode token
    refine ⟨rfl, rfl, rfl, rfl, rfl, rfl, rfl, rfl, rfl, rfl, rfl, ?_, rfl⟩
    unfold logoutRun
    cases o.clearAuthResult <;> rfl

/-! ## Claim C7: single-file archives -/

theorem dropWhileHeadNe (sep : Char) (l r : List Char) (hne : l ≠ [])
    (h : ∀ c ∈ l, c ≠ sep) : (l ++ r).dropWhile (fun c => c = sep) = l ++ r := by
  cases l with
  | nil => exact absurd rfl hne
  | cons c t =>
    have hc : c ≠ sep := h c (List.mem_cons_self c t)
    simp [List.dropWhile_cons, hc]

theorem takeWhileUntilSep (sep : Char) (l r : List Char)
    (h : ∀ c ∈ l, c ≠ sep) : (l ++ sep :: r).takeWhile (fun c => c ≠ sep) = l := by
  induction l with
  | nil => simp [List.takeWhile_cons]
  | cons c t ih =>
    have hc : c ≠ sep := h c (List.mem_cons_self c t)
    have ih2 := ih (fun x hx => h x (List.mem_cons_of_mem c hx))
    simp only [ne_eq, decide_not] at ih2 ⊢
    simp only [List.cons_append, List.takeWhile_cons]
    simp [hc, ih2]

theorem baseNameOfData (sep : Char) (p n : String) (pre : List Char)
    (hd : p.data = pre ++ sep :: n.data) (hn : n.data ≠ []) (hsep : sep ∉ n.data) :
    baseNameGo sep p = n := by
  have hpnil : p ≠ "" := dataNeNil.mpr (by rw [hd]; simp)
  have hrev : p.data.reverse = n.data.reverse ++ sep :: pre.reverse := by
    rw [hd]
    simp
  have hdrop : p.data.reverse.dropWhile (fun c => c = sep) = p.data.reverse := by
    rw [hrev]
    exact dropWhileHeadNe sep _ _ (by simp [hn])
      (fun c hc he => hsep (he ▸ List.mem_reverse.mp hc))
  unfold baseNameGo
  rw [if_neg hpnil]
  dsimp only
  rw [hdrop, List.reverse_reverse, hrev,
    takeWhileUntilSep sep _ _ (fun c hc he => hsep (he ▸ List.mem_reverse.mp hc))]
  rw [List.reverse_reverse]
  rw [if_neg hn]

/-- Claim C7: for a single non-archive file input, createZipFromFile
produces exactly one entry, named by the file's base name, with the
Deflate method and the file bytes verbatim; and on a path of the form
directory ++ separator ++ name the base name is that final name. -/
theorem claim_c7 (sep : Char) (filePath : String) (content : List Nat) :
    (createZipFromFile sep filePath content).length = 1 ∧
    createZipFromFile sep filePath content =
      [⟨baseNameGo sep filePath, false, 8, content⟩] ∧
    (∀ d n : String, n ≠ "" → sep ∉ n.data →
      baseNameGo sep (d ++ sepStr sep ++ n) = n) := by
  refine ⟨rfl, rfl, ?_⟩
  intro d n hn hsep
  refine baseNameOfData sep _ n d.data ?_ (dataNeNil.mp hn) hsep
  show (d.data ++ [sep]) ++ n.data = d.data ++ sep :: n.data
  simp

/-- Witness for claim C7: zipping the file /tmp/report.txt with one byte
of content on a slash-separated host. -/
theorem claim_c7_witness :
    createZipFromFile '/' "/tmp/report.txt" [42] =
      [⟨baseNameGo '/' "/tmp/report.txt", false, 8, [42]⟩] ∧
    baseNameGo '/' ("/tmp" ++ sepStr '/' ++ "report.txt") = "report.txt" := by
  have h := claim_c7 '/' "/tmp/report.txt" [42]
  exact ⟨h.2.1, h.2.2 "/tmp" "report.txt" (by decide) (by decide)⟩

/-! ## Claim C9: the run command on a path that does not exist -/

theorem opDoneSnd {α : Type} (r : Except String α × List Request) : (opDone r).2 = r.2 := by
  unfold opDone
  cases r.1 <;> rfl

/-- Claim C9: when the single run argument does not name an existing
filesystem path, it is sent to the server as inline Python code exactly
when it neither ends in .py (case-insensitively) nor contains the host
path separator; otherwise the command fails with the file-not-found error
and issues no network request. -/
theorem claim_c9 (o : Oracle) (token sandboxFlag input m : String)
    (htok : token ≠ "") (hstat : o.statPath input = .statError m) :
    ((suffixCI input ".py" ∨ o.pathSep ∈ input.data) →
      runRun o token sandboxFlag input =
        (.error ("file not found or is a directory: " ++ input), [])) ∧
    (¬ suffixCI input ".py" → o.pathSep ∉ input.data →
      runRun o token sandboxFlag input = opDone (runPythonOp o sandboxFlag input "") ∧
      (runRun o token sandboxFlag input).2 =
        [⟨"POST", "/sandbox/run", runPythonReq sandboxFlag input ""⟩] ∧
      ("code", JsonVal.str input) ∈ runPythonReq sandboxFlag input "") := by
  have hreq : requireAuth token = .ok () := by
    simp [requireAuth, isAuthenticated, htok]
  constructor
  · intro hc
    rcases hc with h | h
    · have hs : hasSuffix (toLowerStr input) ".py" = true := by
        rw [lowerSuffixEq input ".py" (by decide)]
        exact (suffixCIbIff input ".py").mpr h
      simp [runRun, hreq, hstat, hs]
    · have hcont : input.data.contains o.pathSep = true := by simp [h]
      simp [runRun, hreq, hstat, hcont]
      exact fun _ hn => absurd h hn
  · intro h1 h2
    have hs : hasSuffix (toLowerStr input) ".py" = false := by
      rw [lowerSuffixEq input ".py" (by decide)]
      cases hcb : suffixCIb input ".py"
      · rfl
      · exact absurd ((suffixCIbIff input ".py").mp hcb) h1
    have hcont : input.data.contains o.pathSep = false := by simp [h2]
    have he : runRun o token sandboxFlag input = opDone (runPythonOp o sandboxFlag input "") := by
      simp [runRun, hreq, hstat, hs, hcont]
      exact fun hmem => absurd hmem h2
    refine ⟨he, ?_, by simp [runPythonReq]⟩
    rw [he, opDoneSnd]
    rfl

/-- Witness for claim C9 using the concrete test oracle: inline code goes
to POST /sandbox/run, while a .py-looking missing file fails without any
request. -/
theorem claim_c9_witness :
    (runRun testOracle "tok" "auto" "print(42)" =
      opDone (runPythonOp testOracle "auto" "print(42)" "") ∧
      (runRun testOracle "tok" "auto" "print(42)").2 =
        [⟨"POST", "/sandbox/run", runPythonReq "auto" "print(42)" ""⟩] ∧
      ("code", JsonVal.str "print(42)") ∈ runPythonReq "auto" "print(42)" "") ∧
    runRun testOracle "tok" "auto" "script.py" =
      (.error ("file not found or is a directory: " ++ "script.py"), []) := by
  have h1 := claim_c9 testOracle "tok" "auto" "print(42)" "no such file" (by decide) rfl
  have h2 := claim_c9 testOracle "tok" "auto" "script.py" "no such file" (by decide) rfl
  exact ⟨h1.2 (by unfold suffixCI; decide) (by decide),
    h2.1 (Or.inl (by unfold suffixCI; decide))⟩

/-! ## Claim C8: DownloadZip filename extraction -/

theorem firstIdxAt (pat : List Char) (l : List Char) (n : Nat)
    (h1 : pat.isPrefixOf (l.drop n) = true)
    (h2 : ∀ i, i < n → pat.isPrefixOf (l.drop i) = false) :
    firstIdx pat l = some n := by
  induction l generalizing n with
  | nil =>
    cases n with
    | zero =>
      cases pat with
      | nil => rfl
      | cons a as => simp [List.isPrefixOf] at h1
    | succ k =>
      have hc := h2 0 (Nat.succ_pos k)
      have h1b : pat.isPrefixOf [] = true := by simpa using h1
      have hcb : pat.isPrefixOf [] = false := by simpa using hc
      rw [hcb] at h1b
      exact absurd h1b (by simp)
  | cons c t ih =>
    cases n with
    | zero =>
      unfold firstIdx
      rw [List.drop_zero] at h1
      rw [if_pos h1]
    | succ k =>
      unfold firstIdx
      have hc := h2 0 (Nat.succ_pos k)
      rw [List.drop_zero] at hc
      rw [hc]
      simp only [Bool.false_eq_true, if_false]
      rw [ih k (by simpa using h1) (fun i hi => by simpa using h2 (i + 1) (Nat.succ_lt_succ hi))]
      rfl

theorem firstIdxQuote (name rest : List Char) (hq : quoteChar ∉ name) :
    firstIdx [quoteChar] (name ++ quoteChar :: rest) = some name.length := by
  apply firstIdxAt
  · rw [List.drop_left]
    simp [List.isPrefixOf]
  · intro i hi
    rw [List.drop_append_of_le_length (Nat.le_of_lt hi)]
    have hlen : name.drop i ≠ [] := by
      intro he
      have := congrArg List.length he
      simp only [List.length_drop, List.length_nil] at this
      omega
    obtain ⟨c, t, hct⟩ := List.exists_cons_of_ne_nil hlen
    rw [hct]
    have hc : quoteChar ≠ c := by
      intro he
      exact hq ((List.drop_suffix i name).subset (hct ▸ List.mem_cons_self c t) |> (he ▸ ·))
    simp [List.isPrefixOf, hc]

/-- Claim C8: on a successful zip download, the returned filename is the
substring between the first occurrence of the token filename=" and the
next double quote in the Content-Disposition header; an absent header
yields the fixed fallback download.zip. -/
theorem claim_c8 (resp : HttpResponse) (pre rest : List Char) (name : String)
    (h200 : resp.statusCode = 200)
    (hsplit : resp.contentDisposition.data =
      pre ++ ("filename=".data ++ [quoteChar]) ++ (name.data ++ quoteChar :: rest))
    (hfirst : ∀ i, i < pre.length →
      ("filename=".data ++ [quoteChar]).isPrefixOf (resp.contentDisposition.data.drop i) = false)
    (hq : quoteChar ∉ name.data) :
    downloadZipHandle resp = .ok (resp.body, name) ∧
    (∀ r2 : HttpResponse, r2.statusCode = 200 → r2.contentDisposition = "" →
      downloadZipHandle r2 = .ok (r2.body, "download.zip")) := by
  constructor
  · have hcd : resp.contentDisposition ≠ "" := dataNeNil.mpr (by rw [hsplit]; simp)
    have htokpre : ("filename=".data ++ [quoteChar]).isPrefixOf
        (resp.contentDisposition.data.drop pre.length) = true := by
      rw [hsplit, List.append_assoc, List.drop_left]
      exact List.isPrefixOf_iff_prefix.mpr (List.prefix_append _ _)
    have hidx := firstIdxAt _ _ _ htokpre hfirst
    have hdrop : resp.contentDisposition.data.drop (pre.length + 10) =
        name.data ++ quoteChar :: rest := by
      rw [hsplit,
        show pre.length + 10 = (pre ++ ("filename=".data ++ [quoteChar])).length by simp]
      exact List.drop_left _ _
    unfold downloadZipHandle
    rw [if_neg (by simp [h200])]
    have hext : extractFilename resp.contentDisposition = name := by
      unfold extractFilename
      rw [if_neg hcd, hidx]
      dsimp only
      rw [hdrop, firstIdxQuote name.data rest hq]
      dsimp only
      rw [List.take_left]
    rw [hext]
  · intro r2 h2 hcd2
    simp [downloadZipHandle, h2, extractFilename, hcd2]

/-- Witness for claim C8 at a concrete Content-Disposition header. -/
theorem claim_c8_witness :
    downloadZipHandle ⟨200, "attachment; filename=\"report.zip\"", "PK"⟩ =
      .ok ("PK", "report.zip") ∧
    downloadZipHandle ⟨200, "", "PK"⟩ = .ok ("PK", "download.zip") := by
  have h := claim_c8 ⟨200, "attachment; filename=\"report.zip\"", "PK"⟩
    "attachment; ".data [] "report.zip" rfl (by decide) (by decide) (by decide)
  exact ⟨h.1, h.2 ⟨200, "", "PK"⟩ rfl rfl⟩

/-! ## Claim C3: directory archives.  String-level lemmas first. -/

theorem joinSepData (c : Char) (l : List String) :
    (joinSep (sepStr c) l).data = charsJoinC c (l.map String.data) := by
  induction l with
  | nil => rfl
  | cons a t ih =>
    cases t with
    | nil => rfl
    | cons b t2 =>
      simp only [joinSep, charsJoinC, List.map, strDataAppend, ih]
      simp [sepStrData]

theorem slashJoinData (l : List String) :
    (joinSep "/" l).data = charsJoinC '/' (l.map String.data) := by
  have h : sepStr '/' = "/" := rfl
  rw [← h, joinSepData]

theorem mapIdNoSep (sep : Char) (a : List Char) (h : sep ∉ a) :
    a.map (fun c => if c = sep then '/' else c) = a := by
  have : ∀ c ∈ a, (fun c => if c = sep then '/' else c) c = id c := by
    intro c hc
    have : c ≠ sep := fun he => h (he ▸ hc)
    simp [this]
  rw [List.map_congr_left this, List.map_id]

theorem mapCharsJoin (sep : Char) (ls : List (List Char)) (h : ∀ a ∈ ls, sep ∉ a) :
    (charsJoinC sep ls).map (fun c => if c = sep then '/' else c) = charsJoinC '/' ls := by
  induction ls with
  | nil => rfl
  | cons a t ih =>
    cases t with
    | nil =>
      simp only [charsJoinC]
      exact mapIdNoSep sep a (h a (List.mem_cons_self a []))
    | cons b t2 =>
      simp only [charsJoinC, List.map_append, List.map_cons, if_pos rfl]
      rw [mapIdNoSep sep a (h a (List.mem_cons_self a _)),
        show (List.map (fun c => if c = sep then '/' else c) (charsJoinC sep (b :: t2)) =
          charsJoinC '/' (b :: t2)) from ih (fun x hx => h x (List.mem_cons_of_mem a hx))]
      simp

theorem replaceSepJoin (sep : Char) (comps : List String)
    (h : ∀ n ∈ comps, sep ∉ n.data) :
    replaceSep sep (joinSep (sepStr sep) comps) = joinSep "/" comps := by
  apply stringDataInj
  show (joinSep (sepStr sep) comps).data.map (fun c => if c = sep then '/' else c) = _
  rw [joinSepData, slashJoinData]
  exact mapCharsJoin sep (comps.map String.data)
    (by intro a ha; obtain ⟨n, hn, rfl⟩ := List.mem_map.mp ha; exact h n hn)

theorem splitSlashNoSlash (a : List Char) (h : '/' ∉ a) : splitSlash a = [a] := by
  induction a with
  | nil => rfl
  | cons c t ih =>
    have hc : c ≠ '/' := fun he => h (he ▸ List.mem_cons_self c t)
    unfold splitSlash
    rw [if_neg hc, ih (fun hm => h (List.mem_cons_of_mem c hm))]

theorem splitSlashAppend (a r : List Char) (h : '/' ∉ a) :
    splitSlash (a ++ '/' :: r) = a :: splitSlash r := by
  induction a with
  | nil => simp [splitSlash]
  | cons c t ih =>
    have hc : c ≠ '/' := fun he => h (he ▸ List.mem_cons_self c t)
    have ih2 := ih (fun hm => h (List.mem_cons_of_mem c hm))
    show splitSlash (c :: (t ++ '/' :: r)) = (c :: t) :: splitSlash r
    simp only [splitSlash]
    rw [if_neg hc, ih2]

theorem splitCharsJoin (ls : List (List Char)) (hne : ls ≠ [])
    (h : ∀ a ∈ ls, '/' ∉ a) : splitSlash (charsJoinC '/' ls) = ls := by
  induction ls with
  | nil => exact absurd rfl hne
  | cons a t ih =>
    cases t with
    | nil =>
      simp only [charsJoinC]
      exact splitSlashNoSlash a (h a (List.mem_cons_self a []))
    | cons b t2 =>
      simp only [charsJoinC]
      rw [splitSlashAppend a _ (h a (List.mem_cons_self a _)),
        ih (by simp) (fun x hx => h x (List.mem_cons_of_mem a hx))]

theorem charsJoinSnoc (ls : List (List Char)) (hne : ls ≠ []) :
    charsJoinC '/' (ls ++ [[]]) = charsJoinC '/' ls ++ ['/'] := by
  induction ls with
  | nil => exact absurd rfl hne
  | cons a t ih =>
    cases t with
    | nil => simp [charsJoinC]
    | cons b t2 =>
      show charsJoinC '/' (a :: ((b :: t2) ++ [[]])) = _
      have hb : (b :: t2) ++ [[]] = b :: (t2 ++ [[]]) := by simp
      rw [hb]
      simp only [charsJoinC]
      rw [show charsJoinC '/' (b :: (t2 ++ [[]])) = charsJoinC '/' ((b :: t2) ++ [[]]) by rw [hb],
        ih (by simp)]
      simp

theorem goodNameFacts {sep : Char} {n : String} (h : goodNameB sep n = true) :
    n.data ≠ [] ∧ n ≠ "." ∧ sep ∉ n.data ∧ '/' ∉ n.data := by
  simp [goodNameB] at h
  exact ⟨dataNeNil.mp h.1.1.1, h.1.1.2, h.1.2, h.2⟩

theorem joinNeDot (sep : Char) (comps : List String) (hne : comps ≠ [])
    (hg : ∀ n ∈ comps, goodNameB sep n = true) :
    joinSep (sepStr sep) comps ≠ "." := by
  apply stringNeOfData
  rw [joinSepData]
  cases comps with
  | nil => exact absurd rfl hne
  | cons a t =>
    cases t with
    | nil =>
      intro he
      exact (goodNameFacts (hg a (List.mem_cons_self a []))).2.1 (stringDataInj he)
    | cons b t2 =>
      intro he
      have hval : charsJoinC sep ((a :: b :: t2).map String.data) =
          a.data ++ sep :: charsJoinC sep ((b :: t2).map String.data) := by
        simp [charsJoinC]
      rw [hval] at he
      have hlen := congrArg List.length he
      simp only [List.length_append, List.length_cons] at hlen
      simp only [List.length_nil] at hlen
      have ha := (goodNameFacts (hg a (List.mem_cons_self a _))).1
      have : a.data.length ≠ 0 := fun hz => ha (List.eq_nil_of_length_eq_zero hz)
      omega

theorem charsJoinLastNe (ls : List (List Char)) (hne : ls ≠ [])
    (h : ∀ a ∈ ls, a ≠ [] ∧ '/' ∉ a) :
    ∃ d t, (charsJoinC '/' ls).reverse = d :: t ∧ d ≠ '/' := by
  induction ls with
  | nil => exact absurd rfl hne
  | cons a t ih =>
    cases t with
    | nil =>
      have ha := h a (List.mem_cons_self a [])
      obtain ⟨d, t2, hdt⟩ := List.exists_cons_of_ne_nil
        (show a.reverse ≠ [] by simp [ha.1])
      refine ⟨d, t2, by simpa [charsJoinC] using hdt, ?_⟩
      have hd : d ∈ a.reverse := hdt ▸ List.mem_cons_self d t2
      exact fun he => ha.2 (he ▸ List.mem_reverse.mp hd)
    | cons b t2 =>
      obtain ⟨d, tt, hdt, hd⟩ := ih (by simp) (fun x hx => h x (List.mem_cons_of_mem a hx))
      refine ⟨d, tt ++ '/' :: a.reverse, ?_, hd⟩
      show (charsJoinC '/' (a :: b :: t2)).reverse = _
      have hcc : charsJoinC '/' (a :: b :: t2) = a ++ '/' :: charsJoinC '/' (b :: t2) := by
        simp [charsJoinC]
      rw [hcc]
      simp [hdt]

theorem joinNoSlashSuffix (comps : List String) (hne : comps ≠ [])
    (h : ∀ n ∈ comps, n.data ≠ [] ∧ '/' ∉ n.data) :
    hasSuffix (joinSep "/" comps) "/" = false := by
  obtain ⟨d, t, hdt, hd⟩ := charsJoinLastNe (comps.map String.data)
    (by simpa using hne)
    (by intro a ha; obtain ⟨n, hn, rfl⟩ := List.mem_map.mp ha; exact h n hn)
  unfold hasSuffix
  rw [slashJoinData, hdt]
  have hq : "/".data.reverse = ['/'] := rfl
  rw [hq]
  simp [List.isPrefixOf]
  exact fun he => hd he.symm

theorem walkShapeE (e : FSEntry) : ∀ p ∈ walkE e, ∃ r, p.1 = e.name :: r := by
  cases e with
  | file n c =>
    intro p hp
    simp only [walkE, List.mem_singleton] at hp
    exact ⟨[], by simp [hp, FSEntry.name]⟩
  | dir n cs =>
    intro p hp
    simp only [walkE, List.mem_cons, List.mem_map] at hp
    rcases hp with hp | ⟨q, _, hq⟩
    · exact ⟨[], by simp [hp, FSEntry.name]⟩
    · exact ⟨q.1, by simp [← hq, FSEntry.name]⟩

theorem walkShapeL : ∀ (l : FSList), ∀ p ∈ walkL l, ∃ nm r, nm ∈ namesL l ∧ p.1 = nm :: r
  | .nil => by intro p hp; simp [walkL] at hp
  | .cons e t => by
    intro p hp
    simp only [walkL, List.mem_append] at hp
    rcases hp with hp | hp
    · obtain ⟨r, hr⟩ := walkShapeE e p hp
      exact ⟨e.name, r, by simp [namesL], hr⟩
    · obtain ⟨nm, r, hnm, hr⟩ := walkShapeL t p hp
      exact ⟨nm, r, by simp [namesL, hnm], hr⟩

theorem walkNonNilL (l : FSList) : ∀ p ∈ walkL l, p.1 ≠ [] := by
  intro p hp
  obtain ⟨nm, r, _, hr⟩ := walkShapeL l p hp
  simp [hr]

mutual
theorem walkGoodE (sep : Char) : ∀ (e : FSEntry), wfE sep e = true →
    ∀ p ∈ walkE e, ∀ n ∈ p.1, goodNameB sep n = true
  | .file nm c => by
    intro hw p hp n hn
    simp only [walkE, List.mem_singleton] at hp
    simp only [wfE] at hw
    rw [hp] at hn
    simp only [List.mem_singleton] at hn
    rw [hn]
    exact hw
  | .dir nm cs => by
    intro hw p hp n hn
    simp only [wfE, Bool.and_eq_true] at hw
    simp only [walkE, List.mem_cons, List.mem_map] at hp
    rcases hp with hp | ⟨q, hq, hqe⟩
    · rw [hp] at hn
      simp only [List.mem_singleton] at hn
      rw [hn]
      exact hw.1
    · rw [← hqe] at hn
      simp only [List.mem_cons] at hn
      rcases hn with hn | hn
      · rw [hn]; exact hw.1
      · exact walkGoodL sep cs hw.2 q hq n hn
theorem walkGoodL (sep : Char) : ∀ (l : FSList), wfL sep l = true →
    ∀ p ∈ walkL l, ∀ n ∈ p.1, goodNameB sep n = true
  | .nil => by intro _ p hp; simp [walkL] at hp
  | .cons e t => by
    intro hw p hp n hn
    simp only [wfL, Bool.and_eq_true] at hw
    simp only [walkL, List.mem_append] at hp
    rcases hp with hp | hp
    · exact walkGoodE sep e hw.1.1 p hp n hn
    · exact walkGoodL sep t hw.1.2 p hp n hn
end

theorem joinConsNe (n : String) (r : List String) (hr : r ≠ []) :
    joinSep "/" (n :: r) = n ++ "/" ++ joinSep "/" r := by
  cases r with
  | nil => exact absurd rfl hr
  | cons b t => rfl

mutual
theorem corrE : ∀ (e : FSEntry),
    specPathsE e = (walkE e).map (fun p => (joinSep "/" p.1, p.2))
  | .file nm c => by simp [specPathsE, walkE, joinSep]
  | .dir nm cs => by
    simp only [specPathsE, walkE, List.map_cons, List.map_map]
    refine congrArg₂ _ (by simp [joinSep]) ?_
    rw [corrL cs, List.map_map]
    apply List.map_congr_left
    intro p hp
    have hne : p.1 ≠ [] := walkNonNilL cs p hp
    simp [Function.comp, joinConsNe nm p.1 hne]
theorem corrL : ∀ (l : FSList),
    specPathsL l = (walkL l).map (fun p => (joinSep "/" p.1, p.2))
  | .nil => by simp [specPathsL, walkL]
  | .cons e t => by
    simp only [specPathsL, walkL, List.map_append]
    rw [corrE e, corrL t]
end

mutual
theorem nodupWalkE (sep : Char) : ∀ (e : FSEntry), wfE sep e = true →
    ((walkE e).map (fun p => p.1)).Nodup
  | .file nm c => by simp [walkE]
  | .dir nm cs => by
    intro hw
    simp only [wfE, Bool.and_eq_true] at hw
    simp only [walkE, List.map_cons, List.map_map]
    refine List.Nodup.cons ?_ ?_
    · intro hmem
      simp only [List.mem_map, Function.comp] at hmem
      obtain ⟨p, hp, hpe⟩ := hmem
      have := walkNonNilL cs p hp
      simp at hpe
      exact this hpe
    · have hnd := nodupWalkL sep cs hw.2
      have hinj : Function.Injective (fun l : List String => nm :: l) := by
        intro x y hxy
        injection hxy
      have := List.Nodup.map hinj hnd
      rw [List.map_map] at this
      exact this
theorem nodupWalkL (sep : Char) : ∀ (l : FSList), wfL sep l = true →
    ((walkL l).map (fun p => p.1)).Nodup
  | .nil => by simp [walkL]
  | .cons e t => by
    intro hw
    simp only [wfL, Bool.and_eq_true] at hw
    have hnot : (namesL t).contains e.name = false := by
      cases hc : (namesL t).contains e.name
      · rfl
      · rw [hc] at hw
        simp at hw
    have hmem : e.name ∉ namesL t := by
      intro hm
      rw [List.contains_eq_any_beq] at hnot
      simp [List.any_eq_false] at hnot
      exact (hnot e.name hm) rfl
    simp only [walkL, List.map_append]
    refine List.Nodup.append (nodupWalkE sep e hw.1.1) (nodupWalkL sep t hw.1.2) ?_
    intro x hx hx2
    simp only [List.mem_map] at hx hx2
    obtain ⟨p, hp, hpe⟩ := hx
    obtain ⟨q, hq, hqe⟩ := hx2
    obtain ⟨r, hr⟩ := walkShapeE e p hp
    obtain ⟨nm2, r2, hnm2, hr2⟩ := walkShapeL t q hq
    rw [← hpe] at hqe
    rw [hr] at hqe
    rw [hr2] at hqe
    injection hqe.symm with hhead _
    exact hmem (hhead ▸ hnm2)
end

theorem joinDataInj (p1 q1 : List String) (hp : p1 ≠ []) (hq : q1 ≠ [])
    (hgp : ∀ n ∈ p1, '/' ∉ n.data) (hgq : ∀ n ∈ q1, '/' ∉ n.data)
    (h : charsJoinC '/' (p1.map String.data) = charsJoinC '/' (q1.map String.data)) :
    p1 = q1 := by
  have h1 := splitCharsJoin (p1.map String.data) (by simpa using hp)
    (by intro a ha; obtain ⟨n, hn, rfl⟩ := List.mem_map.mp ha; exact hgp n hn)
  have h2 := splitCharsJoin (q1.map String.data) (by simpa using hq)
    (by intro a ha; obtain ⟨n, hn, rfl⟩ := List.mem_map.mp ha; exact hgq n hn)
  have hmap : p1.map String.data = q1.map String.data := by
    rw [← h1, ← h2, h]
  exact List.map_injective_iff.mpr (fun s t hst => stringDataInj hst) hmap

theorem joinNeDirFile (p1 q1 : List String) (hp : p1 ≠ [])
    (hgp : ∀ n ∈ p1, '/' ∉ n.data) (hgq : ∀ n ∈ q1, n.data ≠ [] ∧ '/' ∉ n.data) :
    joinSep "/" p1 ++ "/" ≠ joinSep "/" q1 := by
  intro h
  have hd := congrArg String.data h
  rw [strDataAppend, slashJoinData, slashJoinData,
    show "/".data = ['/'] from rfl,
    ← charsJoinSnoc (p1.map String.data) (by simpa using hp)] at hd
  have h1 := splitCharsJoin (p1.map String.data ++ [[]]) (by simp)
    (by
      intro a ha
      rcases List.mem_append.mp ha with ha | ha
      · obtain ⟨n, hn, rfl⟩ := List.mem_map.mp ha; exact hgp n hn
      · simp at ha; simp [ha])
  have h2 := splitCharsJoin (q1.map String.data)
    (by
      intro hq0
      rw [hq0] at hd
      have := congrArg List.length hd
      rw [charsJoinSnoc (p1.map String.data) (by simpa using hp)] at this
      simp [charsJoinC] at this)
    (by intro a ha; obtain ⟨n, hn, rfl⟩ := List.mem_map.mp ha; exact (hgq n hn).2)
  have hmm : p1.map String.data ++ [[]] = q1.map String.data := by
    rw [← h1, ← h2, hd]
  have hnil : ([] : List Char) ∈ q1.map String.data := by
    rw [← hmm]; simp
  obtain ⟨n, hn, hne⟩ := List.mem_map.mp hnil
  exact (hgq n hn).1 hne

theorem filterMapMap {α β : Type} (l : List α) (f : α → Option β) (g : α → β)
    (h : ∀ x ∈ l, f x = some (g x)) : l.filterMap f = l.map g := by
  induction l with
  | nil => rfl
  | cons a t ih =>
    rw [List.filterMap_cons, h a (List.mem_cons_self a t),
      ih (fun x hx => h x (List.mem_cons_of_mem a hx))]
    rfl

/-- Claim C3: for every well-formed directory input, the archive written
by createZipFromDir is exactly the spec-side archive — one entry per
entry strictly under the root (none for the root itself), named by the
slash-relativized path, directories with a trailing slash and no content,
regular files once each with the Deflate method and their bytes verbatim —
and the produced entry names are pairwise distinct. -/
theorem claim_c3 (sep : Char) (root : FSList) (h : wfL sep root = true) :
    createZipFromDir sep root = specArchive root ∧
    ((specArchive root).map ZipEntry.name).Nodup := by
  have hpoint : ∀ p ∈ walkL root, zipEntryFor sep p.1 p.2 =
      some (match p.2 with
        | EntryKind.directory => ZipEntry.mk (joinSep "/" p.1 ++ "/") true 0 []
        | EntryKind.file c => ZipEntry.mk (joinSep "/" p.1) false 8 c) := by
    intro p hp
    have hne : p.1 ≠ [] := walkNonNilL root p hp
    have hgood : ∀ n ∈ p.1, goodNameB sep n = true := walkGoodL sep root h p hp
    have hrel : relString sep p.1 = joinSep (sepStr sep) p.1 := by
      simp [relString, hne]
    simp only [zipEntryFor]
    rw [hrel, if_neg (joinNeDot sep p.1 hne hgood),
      replaceSepJoin sep p.1 (fun n hn => (goodNameFacts (hgood n hn)).2.2.1)]
    obtain ⟨p1, pk⟩ := p
    cases pk with
    | directory =>
      rw [joinNoSlashSuffix p1 hne
        (fun n hn => ⟨(goodNameFacts (hgood n hn)).1, (goodNameFacts (hgood n hn)).2.2.2⟩)]
      simp
    | file c => simp
  have hmain : createZipFromDir sep root =
      (walkL root).map (fun p => match p.2 with
        | EntryKind.directory => ZipEntry.mk (joinSep "/" p.1 ++ "/") true 0 []
        | EntryKind.file c => ZipEntry.mk (joinSep "/" p.1) false 8 c) := by
    unfold createZipFromDir
    rw [List.filterMap_cons,
      show zipEntryFor sep [] EntryKind.directory = none by simp [zipEntryFor, relString]]
    exact filterMapMap _ _ _ hpoint
  have hspec : specArchive root =
      (walkL root).map (fun p => match p.2 with
        | EntryKind.directory => ZipEntry.mk (joinSep "/" p.1 ++ "/") true 0 []
        | EntryKind.file c => ZipEntry.mk (joinSep "/" p.1) false 8 c) := by
    unfold specArchive
    rw [corrL root, List.map_map]
    apply List.map_congr_left
    intro p hp
    obtain ⟨p1, pk⟩ := p
    cases pk <;> rfl
  refine ⟨hmain.trans hspec.symm, ?_⟩
  rw [hspec, List.map_map]
  refine List.Nodup.map_on ?_ (List.Nodup.of_map _ (nodupWalkL sep root h))
  intro x hx y hy hxy
  have hgx0 := walkGoodL sep root h x hx
  have hgy0 := walkGoodL sep root h y hy
  have hnex : x.1 ≠ [] := walkNonNilL root x hx
  have hney : y.1 ≠ [] := walkNonNilL root y hy
  apply List.inj_on_of_nodup_map (nodupWalkL sep root h) hx hy
  have hgx : ∀ n ∈ x.1, n.data ≠ [] ∧ '/' ∉ n.data :=
    fun n hn => ⟨(goodNameFacts (hgx0 n hn)).1, (goodNameFacts (hgx0 n hn)).2.2.2⟩
  have hgy : ∀ n ∈ y.1, n.data ≠ [] ∧ '/' ∉ n.data :=
    fun n hn => ⟨(goodNameFacts (hgy0 n hn)).1, (goodNameFacts (hgy0 n hn)).2.2.2⟩
  obtain ⟨x1, xk⟩ := x
  obtain ⟨y1, yk⟩ := y
  simp only at hgx hgy hnex hney ⊢
  cases xk with
  | directory =>
    cases yk with
    | directory =>
      simp only [Function.comp] at hxy
      have hd := congrArg String.data hxy
      rw [strDataAppend, strDataAppend, slashJoinData, slashJoinData] at hd
      exact joinDataInj x1 y1 hnex hney (fun n hn => (hgx n hn).2)
        (fun n hn => (hgy n hn).2) (List.append_inj' hd rfl).1
    | file c =>
      simp only [Function.comp] at hxy
      exact absurd hxy (joinNeDirFile x1 y1 hnex (fun n hn => (hgx n hn).2) hgy)
  | file c =>
    cases yk with
    | directory =>
      simp only [Function.comp] at hxy
      exact absurd hxy.symm (joinNeDirFile y1 x1 hney (fun n hn => (hgy n hn).2) hgx)
    | file c2 =>
      simp only [Function.comp] at hxy
      have hd := congrArg String.data hxy
      rw [slashJoinData, slashJoinData] at hd
      exact joinDataInj x1 y1 hnex hney (fun n hn => (hgx n hn).2)
        (fun n hn => (hgy n hn).2) hd

/-- Witness for claim C3: a concrete two-level tree on a
backslash-separated host, with the concrete archive evaluated. -/
theorem claim_c3_witness :
    wfL '\\' demoTree = true ∧
    (createZipFromDir '\\' demoTree = specArchive demoTree ∧
      ((specArchive demoTree).map ZipEntry.name).Nodup) ∧
    createZipFromDir '\\' demoTree =
      [⟨"b.txt", false, 8, [104, 105]⟩, ⟨"sub/", true, 0, []⟩,
        ⟨"sub/c.py", false, 8, [112]⟩] := by
  exact ⟨by decide, claim_c3 '\\' demoTree (by decide), by decide⟩

/-- Witness for the amended claim C5 at a concrete token and the concrete
test oracle. -/
theorem claim_c5_amended_witness :
    (requireAuth "tok" = .ok () ↔ "tok" ≠ "") ∧
    sandboxListRun testOracle "" =
      (.error "not authenticated. Please run 'everywhere login' first", []) ∧
    execRun testOracle "" "auto" "ls" =
      (.error "not authenticated. Please run 'everywhere login' first", []) := by
  have h := claim_c5_amended
  have h2 := h.2 testOracle "n" "p" "s" "pa" "lf" "ip" "tp" "ff" "auto" "ls" "in" [] false
    false "tok"
  exact ⟨(h.1 "tok").1, h2.1, h2.2.2.2.2.2.2.2.2.2.1⟩
